import Mathlib

/-!
Verification of `torch/distributed/fsdp/flatten_params_wrapper.py`.

Shallow embedding conventions:
* Python strings are modelled as `List Char` (`Str`), so that the byte-exact
  key rewriting of the state-dict hooks is faithful and provable.
* A Python `dict` (a state dict, or an `nn.Module`'s `_parameters` registry)
  is modelled as an association list `List (Str × V)`.
* Raising is modelled with `Except`; an assertion failure carries its message.
* The external collaborator `FlatParamHandle` (defined in `flat_param.py`,
  outside this file's source) is modelled from the spec where needed.
-/

namespace Fpw

abbrev Str : Type := List Char

abbrev StateDict (V : Type) : Type := List (Str × V)

/-- The module constant `FLAT_PARAM = "flat_param"`. -/
def FLAT_PARAM : Str := "flat_param".toList

/-- The module constant `FPW_MODULE = "_fpw_module"`. -/
def FPW_MODULE : Str := "_fpw_module".toList

/-- Modelled from the spec: `_replace_by_prefix` (from `torch.distributed.utils`,
not part of this source file) rewrites every key of the mapping that begins
with `oldPfx` so that it begins with `newPfx` instead (the part of the key
after `oldPfx` is kept), leaving all other keys unchanged. -/
def replaceByPfx {V : Type} (sd : StateDict V) (oldPfx newPfx : Str) : StateDict V :=
  sd.map fun kv =>
    if oldPfx.isPrefixOf kv.1 then (newPfx ++ kv.1.drop oldPfx.length, kv.2) else kv

/-- `k.split(".")[-1]`: the last dot-separated segment of a key. -/
def lastSegment (k : Str) : Str :=
  (List.splitOn '.' k).getLastD []

/-- `_post_state_dict_hook`: moves everything from the `_fpw_module.` level up
one level by replacing the key pfx `prefix + "_fpw_module."` with `prefix`. -/
def postStateDictHook {V : Type} (sd : StateDict V) (pfx : Str) : StateDict V :=
  replaceByPfx sd (pfx ++ FPW_MODULE ++ ['.']) pfx

/-- The assertion message of `_pre_load_state_dict_hook` for key `k`. -/
def badFlatParamKeyMsg (k : Str) : Str :=
  "Expected key to contain flat_param, but key name is ".toList ++ k

/-- The `for k in list(state_dict.keys())` loop of `_pre_load_state_dict_hook`:
for every snapshot key `k` starting with `flatParamKey`, assert that its last
dot-separated segment starts with `flat_param` and replace the key pfx `k`
with `pfx ++ lastSegment k`. -/
def loadLoop {V : Type} (pfx flatParamKey : Str) (acc : StateDict V) :
    List Str → Except Str (StateDict V)
  | [] => Except.ok acc
  | k :: ks =>
    if flatParamKey.isPrefixOf k then
      if FLAT_PARAM.isPrefixOf (lastSegment k) then
        loadLoop pfx flatParamKey (replaceByPfx acc k (pfx ++ lastSegment k)) ks
      else
        Except.error (badFlatParamKeyMsg k)
    else
      loadLoop pfx flatParamKey acc ks

/-- `_pre_load_state_dict_hook`: first pushes everything down to the
`_fpw_module` level, then moves the `flat_param*` keys one level back up,
asserting that every key matching `prefix + "_fpw_module.flat_param"` has a
last segment beginning with `flat_param`. -/
def preLoadStateDictHook {V : Type} (sd : StateDict V) (pfx : Str) :
    Except Str (StateDict V) :=
  let sd1 := replaceByPfx sd pfx (pfx ++ FPW_MODULE ++ ['.'])
  let flatParamKey := pfx ++ FPW_MODULE ++ ['.'] ++ FLAT_PARAM
  loadLoop pfx flatParamKey sd1 (sd1.map Prod.fst)

/-- The aggregated-buffer key pattern computed by
`_pre_load_state_dict_hook`: `prefix + "_fpw_module." + "flat_param"`. -/
def flatParamKeyOf (pfx : Str) : Str :=
  pfx ++ FPW_MODULE ++ ['.'] ++ FLAT_PARAM

/-- The per-entry renaming applied by the key-move loop of
`_pre_load_state_dict_hook` to the snapshot keys processed so far (`done`);
used to state that loop's invariant. -/
def gStep {V : Type} (pfx : Str) (done : List Str) (kv : Str × V) : Str × V :=
  if flatParamKeyOf pfx <+: kv.1 ∧ kv.1 ∈ done then
    (pfx ++ lastSegment kv.1, kv.2)
  else kv

/-! ### Python dict operations for the `_parameters` registry -/

/-- `d[k] = v`: overwrite the entry if the key is present, else append it. -/
def dictSet {V : Type} (d : List (Str × V)) (k : Str) (v : V) : List (Str × V) :=
  if d.any (fun kv => kv.1 == k) then
    d.map fun kv => if kv.1 == k then (k, v) else kv
  else
    d ++ [(k, v)]

/-- `d.pop(k, None)`: remove the entry for `k` if present, never failing. -/
def dictPop {V : Type} (d : List (Str × V)) (k : Str) : List (Str × V) :=
  d.filter fun kv => kv.1 != k

/-- Key membership in a registry. -/
def dictContains {V : Type} (d : List (Str × V)) (k : Str) : Bool :=
  d.any fun kv => kv.1 == k

/-! ### The wrapper and its handle -/

/-- The slice of the external `FlatParamHandle` state that this component
reads: the identity of the flattened parameter it owns (a buffer id) and its
`_use_orig_params` flag. Modelled from the spec (the handle lives in
`flat_param.py`, outside this source file). -/
structure FlatParamHandle where
  flatParam : Nat
  useOrigParams : Bool
deriving DecidableEq

/-- `FlattenParamsWrapper` state.

* `flatParamHandle` — `self._flat_param_handle`; `none` models the attribute
  being absent (`hasattr` false).
* `useOrigParamsAttr` — `self._use_orig_params`; `none` models the attribute
  being absent (it is only assigned when the wrapper manages parameters).
* `parameters` — the `nn.Module` `_parameters` registry of the wrapper.
* `viewsInstalled` — whether the per-parameter views produced by the handle's
  `unflatten_as_params` context are currently installed in the wrapped
  module's tree. -/
structure FlattenParamsWrapper where
  flatParamHandle : Option FlatParamHandle
  useOrigParamsAttr : Option Bool
  parameters : List (Str × Option Nat)
  viewsInstalled : Bool
deriving DecidableEq

/-- `has_params` property: `hasattr(self, "_flat_param_handle")`. -/
def hasParams (w : FlattenParamsWrapper) : Bool :=
  w.flatParamHandle.isSome

/-- The assertion message of the `handle` property. -/
def handleAssertMsg : Str :=
  ("Accessing the handle of a `FlattenParamsWrapper` that does not " ++
    "manage any parameters").toList

/-- `handle` property: asserts that the handle attribute exists and returns
it; the assertion failure is modelled as `Except.error`. -/
def handle (w : FlattenParamsWrapper) : Except Str FlatParamHandle :=
  match w.flatParamHandle with
  | some h => Except.ok h
  | none => Except.error handleAssertMsg

/-- `flat_param` property: `self.handle.flat_param if self.has_params else
None`. -/
def flatParam (w : FlattenParamsWrapper) : Option Nat :=
  match w.flatParamHandle with
  | some h => some h.flatParam
  | none => none

/-- `_register_flat_param`: `self._parameters["flat_param"] = self.flat_param`. -/
def registerFlatParam (w : FlattenParamsWrapper) : FlattenParamsWrapper :=
  { w with parameters := dictSet w.parameters FLAT_PARAM (flatParam w) }

/-- `_deregister_flat_param`: `self._parameters.pop("flat_param", None)`. -/
def deregisterFlatParam (w : FlattenParamsWrapper) : FlattenParamsWrapper :=
  { w with parameters := dictPop w.parameters FLAT_PARAM }

/-- `__init__`: stores the wrapped module, registers the two state-dict hooks
(modelled by the pure functions above), and, when the parameter list is
nonempty, constructs the handle (its buffer identity is abstracted as the
fresh id `bufId`), registers the flattened parameter iff `use_orig_params` is
false, and records `_use_orig_params`. -/
def init (params : List Nat) (bufId : Nat) (useOrigParams : Bool) :
    FlattenParamsWrapper :=
  let w : FlattenParamsWrapper :=
    { flatParamHandle := none, useOrigParamsAttr := none,
      parameters := [], viewsInstalled := false }
  if params.length == 0 then w
  else
    let w := { w with
      flatParamHandle := some { flatParam := bufId, useOrigParams := useOrigParams } }
    let w := if !useOrigParams then registerFlatParam w else w
    { w with useOrigParamsAttr := some useOrigParams }

/-- The `unflatten_as_params` context manager, run around a caller block that
either raises (`bodyRaises = true`) or returns normally. Returns the wrapper
state after the scope exits together with whether an error propagates to the
caller. The inner `self._flat_param_handle.unflatten_as_params()` context is
modelled from the spec: it installs the per-parameter views on entry and is
guaranteed to retract them on exit, whether or not the body raises. The
`finally` re-registration runs unconditionally, as in the source. -/
def unflattenAsParams (w : FlattenParamsWrapper) (bodyRaises : Bool) :
    FlattenParamsWrapper × Bool :=
  match flatParam w with
  | none => (w, bodyRaises)
  | some _ =>
    let w1 := deregisterFlatParam w
    let w2 := { w1 with viewsInstalled := true }
    let w3 := { w2 with viewsInstalled := false }
    let w4 :=
      match w3.flatParamHandle with
      | some h => if !h.useOrigParams then registerFlatParam w3 else w3
      | none => w3
    (w4, bodyRaises)

/-- Calls this component makes into the `FlatParamHandle`.
`useUnshardedViews b` records `handle._use_unsharded_views(as_params=b)` (the
spec's `materialize_aggregated_live`). -/
inductive HandleCall where
  | useUnshardedViews (asParams : Bool)
deriving DecidableEq

/-- `forward`: when the flattened parameter is present and `_use_orig_params`
is false, calls `_use_unsharded_views(as_params=False)` on the handle, then
delegates to the wrapped module with the unchanged arguments. The wrapped
module is abstracted as the function `child`; the value returned is the list
of handle calls made, paired with the delegated result. (A state with a
handle but no `_use_orig_params` attribute is unreachable from `init`, which
always assigns both together; the model delegates directly there.) -/
def forward {α β : Type} (w : FlattenParamsWrapper) (child : α → β) (args : α) :
    List HandleCall × β :=
  match flatParam w, w.useOrigParamsAttr with
  | some _, some u =>
    if !u then ([HandleCall.useUnshardedViews false], child args)
    else ([], child args)
  | _, _ => ([], child args)

/-- `__getattr__` fallback: the two-stage lookup. `own` is `nn.Module`'s own
lookup on the wrapper (`super().__getattr__`), which either finds a value or
raises `AttributeError`; on that failure the lookup is forwarded verbatim to
the wrapped module, abstracted as `child` (whose failure is its own
`AttributeError` value, returned unmodified). -/
def getattrFallback {V E : Type} (own : Str → Option V)
    (child : Str → Except E V) (name : Str) : Except E V :=
  match own name with
  | some v => Except.ok v
  | none => child name

/-- States reachable from a wrapper by the operations that can touch its
state over its lifetime: running the `unflatten_as_params` scope (with a body
that raises or not) and the two registration toggles. -/
inductive Reachable (w : FlattenParamsWrapper) : FlattenParamsWrapper → Prop where
  | refl : Reachable w w
  | unflatten (w' : FlattenParamsWrapper) (b : Bool) :
      Reachable w w' → Reachable w (unflattenAsParams w' b).1
  | register (w' : FlattenParamsWrapper) :
      Reachable w w' → Reachable w (registerFlatParam w')
  | deregister (w' : FlattenParamsWrapper) :
      Reachable w w' → Reachable w (deregisterFlatParam w')

/-! ### Helper lemmas -/

theorem mem_replaceByPfx_append {V : Type} {sd : StateDict V} {a r : Str} {v : V}
    (b : Str) (h : (a ++ r, v) ∈ sd) : (b ++ r, v) ∈ replaceByPfx sd a b := by
  unfold replaceByPfx
  refine List.mem_map.mpr ⟨(a ++ r, v), h, ?_⟩
  have hp : a.isPrefixOf (a ++ r) = true := by simp
  simp [hp, List.drop_left]

theorem mem_replaceByPfx_of_not {V : Type} {sd : StateDict V} {a k : Str} {v : V}
    (b : Str) (h : (k, v) ∈ sd) (hn : ¬ a <+: k) : (k, v) ∈ replaceByPfx sd a b := by
  unfold replaceByPfx
  refine List.mem_map.mpr ⟨(k, v), h, ?_⟩
  have hp : ¬ (a.isPrefixOf k = true) := by simpa using hn
  simp [hp]

theorem length_replaceByPfx {V : Type} (sd : StateDict V) (a b : Str) :
    (replaceByPfx sd a b).length = sd.length := by
  simp [replaceByPfx]

theorem flatParamHandle_register (w : FlattenParamsWrapper) :
    (registerFlatParam w).flatParamHandle = w.flatParamHandle := rfl

theorem flatParamHandle_deregister (w : FlattenParamsWrapper) :
    (deregisterFlatParam w).flatParamHandle = w.flatParamHandle := rfl

theorem flatParamHandle_unflatten (w : FlattenParamsWrapper) (b : Bool) :
    ((unflattenAsParams w b).1).flatParamHandle = w.flatParamHandle := by
  cases hh : w.flatParamHandle with
  | none => simp [unflattenAsParams, flatParam, hh]
  | some h =>
    simp [unflattenAsParams, flatParam, hh, deregisterFlatParam,
      registerFlatParam]
    split <;> rfl

theorem reachable_flatParamHandle {w w' : FlattenParamsWrapper}
    (h : Reachable w w') : w'.flatParamHandle = w.flatParamHandle := by
  induction h with
  | refl => rfl
  | unflatten w'' b _ ih => rw [flatParamHandle_unflatten]; exact ih
  | register w'' _ ih => rw [flatParamHandle_register]; exact ih
  | deregister w'' _ ih => rw [flatParamHandle_deregister]; exact ih

theorem dictPop_of_not_contains {V : Type} (d : List (Str × V)) (k : Str)
    (h : dictContains d k = false) : dictPop d k = d := by
  unfold dictContains at h
  unfold dictPop
  refine List.filter_eq_self.mpr ?_
  intro kv hkv
  have := List.any_eq_false.mp h kv hkv
  simpa [bne] using this

theorem dictContains_dictPop {V : Type} (d : List (Str × V)) (k : Str) :
    dictContains (dictPop d k) k = false := by
  unfold dictContains dictPop
  rw [List.any_filter]
  refine List.any_eq_false.mpr ?_
  intro kv _
  cases hkv : kv.1 == k <;> simp [bne, hkv]

theorem dictContains_dictSet {V : Type} (d : List (Str × V)) (k : Str) (v : V) :
    dictContains (dictSet d k v) k = true := by
  unfold dictContains dictSet
  by_cases h : d.any (fun kv => kv.1 == k) = true
  · rw [if_pos h, List.any_map]
    obtain ⟨kv, hmem, hkv⟩ := List.any_eq_true.mp h
    refine List.any_eq_true.mpr ⟨kv, hmem, ?_⟩
    simp [Function.comp, hkv]
  · rw [if_neg h, List.any_append]
    simp

/-! ### Claim theorems -/

/-- Claim C3: the export-path remapper `_post_state_dict_hook` with prefix `P`
removes the exact substring `"_fpw_module."` from every key beginning with
`P ++ "_fpw_module."` (the key becomes `P ++ rest`), leaves every other key
unchanged, and preserves the number of entries. -/
theorem postStateDictHook_spec {V : Type} (sd : StateDict V) (pfx : Str) :
    (∀ r v, (pfx ++ FPW_MODULE ++ ['.'] ++ r, v) ∈ sd →
        (pfx ++ r, v) ∈ postStateDictHook sd pfx) ∧
    (∀ k v, (k, v) ∈ sd → ¬ (pfx ++ FPW_MODULE ++ ['.']) <+: k →
        (k, v) ∈ postStateDictHook sd pfx) ∧
    (postStateDictHook sd pfx).length = sd.length := by
  refine ⟨?_, ?_, ?_⟩
  · intro r v h
    exact mem_replaceByPfx_append pfx h
  · intro k v h hn
    exact mem_replaceByPfx_of_not pfx h hn
  · exact length_replaceByPfx sd (pfx ++ FPW_MODULE ++ ['.']) pfx

/-- Witness for C3 at the spec's own example: prefix `"a.b."` and internal
key `"a.b._fpw_module.weight"` exports as `"a.b.weight"`, and an unrelated
key stays. -/
theorem postStateDictHook_spec_witness :
    ("a.b.".toList ++ "weight".toList, (0 : Nat)) ∈
        postStateDictHook [("a.b._fpw_module.weight".toList, 0),
          ("c.d".toList, 1)] "a.b.".toList ∧
    ("c.d".toList, (1 : Nat)) ∈
        postStateDictHook [("a.b._fpw_module.weight".toList, 0),
          ("c.d".toList, 1)] "a.b.".toList :=
  ⟨(postStateDictHook_spec [("a.b._fpw_module.weight".toList, 0),
      ("c.d".toList, 1)] "a.b.".toList).1 "weight".toList 0 (by decide),
   (postStateDictHook_spec [("a.b._fpw_module.weight".toList, 0),
      ("c.d".toList, 1)] "a.b.".toList).2.1 "c.d".toList 1 (by decide)
      (by decide)⟩

/-- Claim C6: a wrapper constructed with an empty parameter list has, in every
state reachable over its lifetime, `has_params = false`, `flat_param = None`,
and a `handle` access that raises the precondition assertion. (The accessors
are modelled as pure functions, mirroring their side-effect-free bodies.) -/
theorem init_empty_params_spec (bufId : Nat) (u : Bool)
    (w' : FlattenParamsWrapper) (hr : Reachable (init [] bufId u) w') :
    hasParams w' = false ∧ flatParam w' = none ∧
      handle w' = Except.error handleAssertMsg := by
  have h1 : w'.flatParamHandle = none := reachable_flatParamHandle hr
  refine ⟨?_, ?_, ?_⟩ <;> simp [hasParams, flatParam, handle, h1]

/-- Witness for C6 at the freshly constructed empty wrapper. -/
theorem init_empty_params_spec_witness :
    hasParams (init [] 0 false) = false ∧ flatParam (init [] 0 false) = none ∧
      handle (init [] 0 false) = Except.error handleAssertMsg :=
  init_empty_params_spec 0 false (init [] 0 false) Reachable.refl

/-- Claim C9: when the wrapper's own lookup does not satisfy an attribute name, the
lookup is forwarded to the wrapped module: the wrapped module's value is
returned when it has the member, and the wrapped module's own error value
propagates verbatim when it also lacks it. -/
theorem getattrFallback_spec {V E : Type} (own : Str → Option V)
    (child : Str → Except E V) (name : Str) (h : own name = none) :
    (∀ v, child name = Except.ok v →
        getattrFallback own child name = Except.ok v) ∧
    (∀ e, child name = Except.error e →
        getattrFallback own child name = Except.error e) := by
  constructor <;> intro x hx <;> simp [getattrFallback, h, hx]

/-- Witness for C9: a name absent from the wrapper whose child lookup fails
returns the child's own error value. -/
theorem getattrFallback_spec_witness :
    getattrFallback (fun _ => (none : Option Nat))
        (fun n => (Except.error n : Except Str Nat)) "foo".toList
      = Except.error "foo".toList :=
  (getattrFallback_spec (fun _ => (none : Option Nat))
      (fun n => (Except.error n : Except Str Nat)) "foo".toList rfl).2
    "foo".toList rfl

/-- Claim C10: `_deregister_flat_param` is total and idempotent: when `flat_param`
is not registered it is the identity on the whole wrapper state, its result
never has `flat_param` registered, and running it twice equals running it
once. -/
theorem deregisterFlatParam_total_idempotent (w : FlattenParamsWrapper) :
    (dictContains w.parameters FLAT_PARAM = false →
        deregisterFlatParam w = w) ∧
    dictContains (deregisterFlatParam w).parameters FLAT_PARAM = false ∧
    deregisterFlatParam (deregisterFlatParam w) = deregisterFlatParam w := by
  refine ⟨?_, ?_, ?_⟩
  · intro h
    cases w with
    | mk fh uo ps vi =>
      simp [deregisterFlatParam, dictPop_of_not_contains ps FLAT_PARAM h]
  · exact dictContains_dictPop w.parameters FLAT_PARAM
  · cases w with
    | mk fh uo ps vi =>
      simp [deregisterFlatParam,
        dictPop_of_not_contains (dictPop ps FLAT_PARAM) FLAT_PARAM
          (dictContains_dictPop ps FLAT_PARAM)]

/-- Witness for C10 on a wrapper whose registry lacks `flat_param`. -/
theorem deregisterFlatParam_total_idempotent_witness :
    dictContains (init [] 0 false).parameters FLAT_PARAM = false ∧
    deregisterFlatParam (init [] 0 false) = init [] 0 false :=
  ⟨by decide, (deregisterFlatParam_total_idempotent (init [] 0 false)).1
    (by decide)⟩

/-- Claim C5: `forward` on a wrapper constructed with a nonempty parameter list and
`use_orig_params = false` makes exactly one handle call,
`_use_unsharded_views(as_params=False)`, then delegates to the wrapped module
with the unchanged arguments and returns its result unchanged; on a wrapper
with no parameters it delegates without touching any handle. -/
theorem forward_spec {α β : Type} (child : α → β) (args : α)
    (params : List Nat) (bufId : Nat) (hne : params ≠ []) :
    forward (init params bufId false) child args
        = ([HandleCall.useUnshardedViews false], child args) ∧
    (∀ u : Bool, forward (init [] bufId u) child args = ([], child args)) := by
  constructor
  · cases params with
    | nil => exact absurd rfl hne
    | cons p ps => rfl
  · intro u; rfl

/-- Witness for C5 at a concrete wrapper, child function and argument. -/
theorem forward_spec_witness :
    forward (init [1] 0 false) (fun n : Nat => n + 1) 5
        = ([HandleCall.useUnshardedViews false], 6) ∧
    forward (init [] 0 true) (fun n : Nat => n + 1) 5 = ([], 6) :=
  ⟨(forward_spec (fun n : Nat => n + 1) 5 [1] 0 (by decide)).1,
   (forward_spec (fun n : Nat => n + 1) 5 [1] 0 (by decide)).2 true⟩

/-- Claim C4: for a wrapper constructed with `use_orig_params = true` and a
nonempty parameter list, this component never registers the flattened
parameter: the registry is empty after construction, still empty after the
entry step of the scoped toggle (whose deregistration is a no-op), and still
empty after a full run of the scope, whether or not the body raises. -/
theorem useOrigParams_no_toggle (params : List Nat) (bufId : Nat) (b : Bool)
    (hne : params ≠ []) :
    (init params bufId true).parameters = [] ∧
    (deregisterFlatParam (init params bufId true)).parameters = [] ∧
    ((unflattenAsParams (init params bufId true) b).1).parameters = [] := by
  cases params with
  | nil => exact absurd rfl hne
  | cons p ps => exact ⟨rfl, rfl, rfl⟩

/-- Witness for C4 at a concrete one-parameter wrapper. -/
theorem useOrigParams_no_toggle_witness :
    (init [7] 3 true).parameters = [] ∧
    (deregisterFlatParam (init [7] 3 true)).parameters = [] ∧
    ((unflattenAsParams (init [7] 3 true) true).1).parameters = [] :=
  useOrigParams_no_toggle [7] 3 true (by decide)

/-- Claim C1: for a wrapper with a handle, `use_orig_params = false` and the
flattened parameter registered (its state outside the scope), running
`unflatten_as_params` around a body that raises leaves the `flat_param`
registration state equal to its pre-entry state, leaves no per-parameter view
installed, and still propagates the error to the caller. -/
theorem unflatten_exception_safe (w : FlattenParamsWrapper)
    (h : FlatParamHandle) (hh : w.flatParamHandle = some h)
    (hu : h.useOrigParams = false)
    (hreg : dictContains w.parameters FLAT_PARAM = true) :
    dictContains ((unflattenAsParams w true).1).parameters FLAT_PARAM
        = dictContains w.parameters FLAT_PARAM ∧
    ((unflattenAsParams w true).1).viewsInstalled = false ∧
    (unflattenAsParams w true).2 = true := by
  simp [unflattenAsParams, flatParam, hh, hu, deregisterFlatParam,
    registerFlatParam]
  rw [hreg]
  exact dictContains_dictSet (dictPop w.parameters FLAT_PARAM) FLAT_PARAM
    (some h.flatParam)

/-- Witness for C1 at a concrete freshly constructed wrapper. -/
theorem unflatten_exception_safe_witness :
    dictContains ((unflattenAsParams (init [1] 0 false) true).1).parameters
        FLAT_PARAM = dictContains (init [1] 0 false).parameters FLAT_PARAM ∧
    ((unflattenAsParams (init [1] 0 false) true).1).viewsInstalled = false ∧
    (unflattenAsParams (init [1] 0 false) true).2 = true :=
  unflatten_exception_safe (init [1] 0 false) ⟨0, false⟩ (by decide) rfl
    (by decide)

/-- Claim C8: for a wrapper with a handle, `use_orig_params = false` and the
flattened parameter registered, entering and exiting `unflatten_as_params`
with an empty (non-raising) body leaves the `flat_param` registration state
and the identity of the flattened parameter returned by `flat_param`
unchanged from before entry. -/
theorem unflatten_empty_body (w : FlattenParamsWrapper) (h : FlatParamHandle)
    (hh : w.flatParamHandle = some h) (hu : h.useOrigParams = false)
    (hreg : dictContains w.parameters FLAT_PARAM = true) :
    dictContains ((unflattenAsParams w false).1).parameters FLAT_PARAM
        = dictContains w.parameters FLAT_PARAM ∧
    flatParam ((unflattenAsParams w false).1) = flatParam w := by
  constructor
  · simp [unflattenAsParams, flatParam, hh, hu, deregisterFlatParam,
      registerFlatParam]
    rw [hreg]
    exact dictContains_dictSet (dictPop w.parameters FLAT_PARAM) FLAT_PARAM
      (some h.flatParam)
  · simp [flatParam, flatParamHandle_unflatten]

/-- Witness for C8 at a concrete freshly constructed wrapper. -/
theorem unflatten_empty_body_witness :
    dictContains ((unflattenAsParams (init [2] 5 false) false).1).parameters
        FLAT_PARAM = dictContains (init [2] 5 false).parameters FLAT_PARAM ∧
    flatParam ((unflattenAsParams (init [2] 5 false) false).1)
        = flatParam (init [2] 5 false) :=
  unflatten_empty_body (init [2] 5 false) ⟨5, false⟩ (by decide) rfl
    (by decide)

theorem loadLoop_error {V : Type} (pfx flatParamKey : Str) (k : Str)
    (hmatch : flatParamKey.isPrefixOf k = true)
    (hbad : FLAT_PARAM.isPrefixOf (lastSegment k) = false) :
    ∀ (ks : List Str) (acc : StateDict V), k ∈ ks →
      ∃ k', loadLoop pfx flatParamKey acc ks
        = Except.error (badFlatParamKeyMsg k') := by
  intro ks
  induction ks with
  | nil => intro acc hk; cases hk
  | cons hd tl ih =>
    intro acc hk
    simp only [loadLoop]
    by_cases h1 : flatParamKey.isPrefixOf hd = true
    · rw [if_pos h1]
      by_cases h2 : FLAT_PARAM.isPrefixOf (lastSegment hd) = true
      · rw [if_pos h2]
        rcases List.mem_cons.mp hk with rfl | hk'
        · rw [h2] at hbad; cases hbad
        · exact ih _ hk'
      · rw [if_neg h2]
        exact ⟨hd, rfl⟩
    · rw [if_neg h1]
      rcases List.mem_cons.mp hk with rfl | hk'
      · rw [hmatch] at h1; exact absurd rfl h1
      · exact ih _ hk'

/-- Claim C7: during import, any key that matches the aggregated-buffer
pattern `P + "_fpw_module.flat_param"` after the generic rewrite but whose
last dot-separated segment does not begin with `flat_param` makes
`_pre_load_state_dict_hook` raise the assertion (`FormatError`), which
propagates to the caller: the hook returns that error and produces no
remapped mapping. -/
theorem preLoad_format_error {V : Type} (sd : StateDict V) (pfx : Str)
    (k : Str)
    (hk : k ∈ (replaceByPfx sd pfx (pfx ++ FPW_MODULE ++ ['.'])).map Prod.fst)
    (hmatch : (flatParamKeyOf pfx).isPrefixOf k = true)
    (hbad : FLAT_PARAM.isPrefixOf (lastSegment k) = false) :
    ∃ k', preLoadStateDictHook sd pfx
      = Except.error (badFlatParamKeyMsg k') := by
  exact loadLoop_error pfx (flatParamKeyOf pfx) k hmatch hbad _ _ hk

/-- Witness for C7: importing the key `"a.b.flat_param.x"` with prefix
`"a.b."` fails with the assertion error. -/
theorem preLoad_format_error_witness :
    ∃ k', preLoadStateDictHook [("a.b.flat_param.x".toList, (0 : Nat))]
        "a.b.".toList = Except.error (badFlatParamKeyMsg k') :=
  preLoad_format_error [("a.b.flat_param.x".toList, (0 : Nat))] "a.b.".toList
    "a.b._fpw_module.flat_param.x".toList (by decide) (by decide) (by decide)

theorem pfxOf_false_of_not {a b : Str} (h : ¬ a <+: b) :
    a.isPrefixOf b = false :=
  Bool.eq_false_iff.mpr (fun hb => h (by simpa using hb))

theorem fpKeyOf_not_pfx_renamed (pfx k y : Str)
    (hk : flatParamKeyOf pfx <+: k) (hy : FLAT_PARAM <+: y) :
    ¬ k <+: pfx ++ y := by
  intro hcon
  obtain ⟨t, ht⟩ := hk
  obtain ⟨t1, ht1⟩ := hy
  rw [← ht] at hcon
  rw [← ht1] at hcon
  rw [flatParamKeyOf] at hcon
  simp only [List.append_assoc] at hcon
  rw [ List.prefix_append_right_inj] at hcon
  have e1 : FPW_MODULE = '_' :: "fpw_module".toList := by decide
  have e2 : FLAT_PARAM = 'f' :: "lat_param".toList := by decide
  rw [e1, e2] at hcon
  simp only [List.cons_append] at hcon
  rw [ List.cons_prefix_cons] at hcon
  exact absurd hcon.1 (by decide)

theorem loadLoop_ok {V : Type} (pfx : Str) (sd1 : StateDict V)
    (todo done : List Str)
    (hsplit : sd1.map Prod.fst = done ++ todo)
    (hnd : (done ++ todo).Nodup)
    (H1 : ∀ k ∈ done ++ todo, flatParamKeyOf pfx <+: k →
        FLAT_PARAM <+: lastSegment k)
    (H2 : ∀ k ∈ done ++ todo, ∀ k' ∈ done ++ todo,
        flatParamKeyOf pfx <+: k → k <+: k' → k = k') :
    loadLoop pfx (flatParamKeyOf pfx) (sd1.map (gStep pfx done)) todo
      = Except.ok (sd1.map (gStep pfx (done ++ todo))) := by
  induction todo generalizing done with
  | nil => simp [loadLoop]
  | cons k ks ih =>
    have hkmem : k ∈ done ++ k :: ks := by simp
    have hassoc : (done ++ [k]) ++ ks = done ++ k :: ks := by simp
    have hsplit' : sd1.map Prod.fst = (done ++ [k]) ++ ks := by
      rw [hassoc]; exact hsplit
    have hnd' : ((done ++ [k]) ++ ks).Nodup := by rw [hassoc]; exact hnd
    have H1' : ∀ x ∈ (done ++ [k]) ++ ks, flatParamKeyOf pfx <+: x →
        FLAT_PARAM <+: lastSegment x := by rw [hassoc]; exact H1
    have H2' : ∀ x ∈ (done ++ [k]) ++ ks, ∀ x' ∈ (done ++ [k]) ++ ks,
        flatParamKeyOf pfx <+: x → x <+: x' → x = x' := by
      rw [hassoc]; exact H2
    simp only [loadLoop]
    by_cases hfp : flatParamKeyOf pfx <+: k
    · have hfpb : (flatParamKeyOf pfx).isPrefixOf k = true := by simpa using hfp
      have hseg : FLAT_PARAM <+: lastSegment k := H1 k hkmem hfp
      have hsegb : FLAT_PARAM.isPrefixOf (lastSegment k) = true := by
        simpa using hseg
      rw [if_pos hfpb, if_pos hsegb]
      have hknotdone : k ∉ done := fun hcon =>
        List.disjoint_of_nodup_append hnd hcon (by simp)
      have hstep :
          replaceByPfx (sd1.map (gStep pfx done)) k (pfx ++ lastSegment k)
            = sd1.map (gStep pfx (done ++ [k])) := by
        unfold replaceByPfx
        rw [List.map_map]
        refine List.map_congr_left ?_
        intro kv hkv
        have hqmem : kv.1 ∈ done ++ k :: ks := by
          rw [← hsplit]; exact List.mem_map_of_mem Prod.fst hkv
        simp only [Function.comp]
        by_cases hq : kv.1 = k
        · have hg : gStep pfx done kv = kv := by
            rw [gStep, if_neg (fun hc => hknotdone (hq ▸ hc.2))]
          have hg' : gStep pfx (done ++ [k]) kv
              = (pfx ++ lastSegment kv.1, kv.2) := by
            rw [gStep, if_pos ⟨hq ▸ hfp, by simp [hq]⟩]
          have hself : k.isPrefixOf kv.1 = true := by simp [hq]
          rw [hg, hg', if_pos hself, hq]
          simp
        · by_cases hren : flatParamKeyOf pfx <+: kv.1 ∧ kv.1 ∈ done
          · have hg : gStep pfx done kv = (pfx ++ lastSegment kv.1, kv.2) := by
              rw [gStep, if_pos hren]
            have hg' : gStep pfx (done ++ [k]) kv
                = (pfx ++ lastSegment kv.1, kv.2) := by
              rw [gStep, if_pos ⟨hren.1, by simp [hren.2]⟩]
            have hnpb : k.isPrefixOf (pfx ++ lastSegment kv.1) = false :=
              pfxOf_false_of_not (fpKeyOf_not_pfx_renamed pfx k
                (lastSegment kv.1) hfp (H1 kv.1 hqmem hren.1))
            rw [hg, hg']
            rw [if_neg (by simp [hnpb])]
          · have hg : gStep pfx done kv = kv := by rw [gStep, if_neg hren]
            have hg' : gStep pfx (done ++ [k]) kv = kv := by
              rw [gStep, if_neg ?_]
              intro hc
              rcases List.mem_append.mp hc.2 with hin | hin
              · exact hren ⟨hc.1, hin⟩
              · exact hq (by simpa using hin)
            have hnpb : k.isPrefixOf kv.1 = false :=
              pfxOf_false_of_not (fun hc =>
                hq ((H2 k hkmem kv.1 hqmem hfp hc).symm))
            rw [hg, hg', if_neg (by simp [hnpb])]
      rw [hstep, ih (done ++ [k]) hsplit' hnd' H1' H2', hassoc]
    · have hfpb : (flatParamKeyOf pfx).isPrefixOf k = false :=
        pfxOf_false_of_not hfp
      rw [if_neg (by simp [hfpb])]
      have hsame : sd1.map (gStep pfx done)
          = sd1.map (gStep pfx (done ++ [k])) := by
        refine List.map_congr_left ?_
        intro kv hkv
        by_cases hq : kv.1 = k
        · rw [gStep, if_neg (fun hc => hfp (hq ▸ hc.1)),
            gStep, if_neg (fun hc => hfp (hq ▸ hc.1))]
        · by_cases hren : flatParamKeyOf pfx <+: kv.1 ∧ kv.1 ∈ done
          · rw [gStep, if_pos hren, gStep, if_pos ⟨hren.1, by simp [hren.2]⟩]
          · rw [gStep, if_neg hren, gStep, if_neg ?_]
            intro hc
            rcases List.mem_append.mp hc.2 with hin | hin
            · exact hren ⟨hc.1, hin⟩
            · exact hq (by simpa using hin)
      rw [hsame, ih (done ++ [k]) hsplit' hnd' H1' H2', hassoc]

/-- Counterexample to C2 as stated: with prefix `"a.b."`, the key
`"a.b.sub.flat_param_x"` — whose image under the generic rewrite has a last
dot-separated segment beginning with `flat_param` — is NOT moved back up one
level to `P + <last segment>` (`"a.b.flat_param_x"`); the hook leaves it at
`"a.b._fpw_module.sub.flat_param_x"`, because the move applies only to keys
beginning with `P + "_fpw_module.flat_param"`. -/
theorem preLoad_nested_key_cex :
    preLoadStateDictHook [("a.b.sub.flat_param_x".toList, (0 : Nat))]
        "a.b.".toList
      = Except.ok [("a.b._fpw_module.sub.flat_param_x".toList, 0)] ∧
    FLAT_PARAM <+:
        lastSegment "a.b._fpw_module.sub.flat_param_x".toList ∧
    "a.b._fpw_module.sub.flat_param_x".toList ≠
      "a.b.".toList ++ lastSegment "a.b._fpw_module.sub.flat_param_x".toList :=
  ⟨rfl, by decide, by decide⟩

set_option synthInstance.maxHeartbeats 1000000

/-- Claim C2 (amended): `_pre_load_state_dict_hook` with prefix `P` rewrites
every key beginning with `P` to begin with `P + "_fpw_module."` instead, and
then moves every resulting key that begins with
`P + "_fpw_module.flat_param"` (not every key whose last segment begins with
`flat_param`) back up one level to `P + <last segment>`. Stated for mappings
whose rewritten keys are distinct and where no aggregated-buffer key is a
proper prefix of another key (as for the dotted-path keys produced by the
surrounding serialization machinery), and whose aggregated-buffer keys all
pass the last-segment assertion (otherwise the hook errors, claim C7). -/
theorem preLoadStateDictHook_spec_amended {V : Type} (sd : StateDict V)
    (pfx : Str)
    (H0 : ((replaceByPfx sd pfx (pfx ++ FPW_MODULE ++ ['.'])).map
        Prod.fst).Nodup)
    (H1 : ∀ k ∈ (replaceByPfx sd pfx (pfx ++ FPW_MODULE ++ ['.'])).map
        Prod.fst, flatParamKeyOf pfx <+: k → FLAT_PARAM <+: lastSegment k)
    (H2 : ∀ k ∈ (replaceByPfx sd pfx (pfx ++ FPW_MODULE ++ ['.'])).map
        Prod.fst, ∀ k' ∈ (replaceByPfx sd pfx (pfx ++ FPW_MODULE ++
        ['.'])).map Prod.fst,
        flatParamKeyOf pfx <+: k → k <+: k' → k = k') :
    preLoadStateDictHook sd pfx = Except.ok
      ((replaceByPfx sd pfx (pfx ++ FPW_MODULE ++ ['.'])).map
        (fun kv => if flatParamKeyOf pfx <+: kv.1
          then (pfx ++ lastSegment kv.1, kv.2) else kv)) := by
  set sd1 := replaceByPfx sd pfx (pfx ++ FPW_MODULE ++ ['.']) with hsd1
  have h0 : sd1.map (gStep pfx []) = sd1 := by
    have : ∀ kv ∈ sd1, gStep pfx [] kv = id kv := by
      intro kv hkv
      rw [gStep, if_neg (fun hc => List.not_mem_nil kv.1 hc.2)]
      rfl
    rw [List.map_congr_left this, List.map_id]
  have hmain := loadLoop_ok pfx sd1 (sd1.map Prod.fst) []
    (List.nil_append (sd1.map Prod.fst)).symm
    (by simpa using H0) (by simpa using H1) (by simpa using H2)
  calc preLoadStateDictHook sd pfx
      = loadLoop pfx (flatParamKeyOf pfx) sd1 (sd1.map Prod.fst) := rfl
    _ = loadLoop pfx (flatParamKeyOf pfx) (sd1.map (gStep pfx []))
          (sd1.map Prod.fst) := by rw [h0]
    _ = Except.ok (sd1.map (gStep pfx ([] ++ sd1.map Prod.fst))) := hmain
    _ = Except.ok (sd1.map (fun kv => if flatParamKeyOf pfx <+: kv.1
          then (pfx ++ lastSegment kv.1, kv.2) else kv)) := by
        rw [List.nil_append]
        congr 1
        refine List.map_congr_left ?_
        intro kv hkv
        have hm : kv.1 ∈ sd1.map Prod.fst :=
          List.mem_map_of_mem Prod.fst hkv
        by_cases hc : flatParamKeyOf pfx <+: kv.1
        · rw [gStep, if_pos ⟨hc, hm⟩, if_pos hc]
        · rw [gStep, if_neg (fun hh => hc hh.1), if_neg hc]

set_option synthInstance.maxHeartbeats 20000

/-- Witness for the amended C2 at the spec's own example: with prefix
`"a.b."`, the key `"a.b.flat_param_0"` ends as `"a.b.flat_param_0"` and
`"a.b.other"` ends as `"a.b._fpw_module.other"`. -/
theorem preLoadStateDictHook_spec_amended_witness :
    preLoadStateDictHook [("a.b.flat_param_0".toList, (0 : Nat)),
        ("a.b.other".toList, 1)] "a.b.".toList
      = Except.ok [("a.b.flat_param_0".toList, 0),
        ("a.b._fpw_module.other".toList, 1)] := by
  have h := preLoadStateDictHook_spec_amended
    [("a.b.flat_param_0".toList, (0 : Nat)), ("a.b.other".toList, 1)]
    "a.b.".toList (by decide) (by decide) (by decide)
  rw [h]
  rfl

end Fpw
